import Mathlib

/-!
Verification of the redian-pms-server progress/attendance engine.

The data model below is a shallow embedding of the TypeScript interfaces in
`src/model.ts` (`Project`, `ProjectReport`, `ProjectAttendance` and their
sub-structures).  TypeScript `number` is modelled as `ℚ` for progress values
and as `Int` for minute-of-day times; `Date` is modelled as `Nat` (a day
index); optional fields become `Option`.

The repository ships only the type declarations; the engine operations
(validator, aggregator, variance calculator, reconciler, summarizer) are
modelled from the specification, each marked `Modelled from the spec:` in its
doc comment.
-/

/-- `ProjectUser` from src/model.ts lines 1-4. -/
structure ProjectUser where
  user_id : String
  role : String
deriving DecidableEq

/-- Task group from src/model.ts lines 8-11. -/
structure TaskGroup where
  _id : String
  name : String
deriving DecidableEq

/-- Task volume from src/model.ts lines 13-16. -/
structure Volume where
  value : ℚ
  unit : String
deriving DecidableEq

/-- One estimation entry from src/model.ts lines 18-21. -/
structure Estimation where
  date : Nat
  value : ℚ
deriving DecidableEq

/-- One task of `Project.task` from src/model.ts lines 6-30. -/
structure ProjectTask where
  _id : String
  group : TaskGroup
  name : String
  volume : Volume
  cost : Option ℚ
  estimation : Option (List Estimation)
  report_id : Option (List String)
deriving DecidableEq

/-- The person inside a project's customer, src/model.ts lines 36-40. -/
structure Person where
  _id : String
  name : String
  role : String
deriving DecidableEq

/-- A project's customer reference, src/model.ts lines 34-41. -/
structure Customer where
  _id : String
  person : Person
deriving DecidableEq

/-- `Project` from src/model.ts lines 5-42. -/
structure Project where
  task : List ProjectTask
  user : List ProjectUser
  name : String
  value : Option ℚ
  customer : Customer
deriving DecidableEq

/-- One entry of a report's `task` section, src/model.ts lines 47-51. -/
structure ReportTask where
  _id : String
  value : ℚ
  detail : Option (List String)
deriving DecidableEq

/-- One entry of a report's `plan` section, src/model.ts lines 52-55. -/
structure ReportPlan where
  task_id : String
  detail : Option (List String)
deriving DecidableEq

/-- The closed weather-condition set, src/model.ts line 58. -/
inductive WeatherCondition where
  | sunny
  | cloudy
  | rainy
  | heavyRain
deriving DecidableEq

/-- One weather entry, src/model.ts lines 56-59: a (start, end) minute-of-day
pair and a condition. -/
structure WeatherEntry where
  time : Int × Int
  condition : WeatherCondition
deriving DecidableEq

/-- One documentation entry, src/model.ts lines 60-63. -/
structure Documentation where
  image_url : String
  description : Option String
deriving DecidableEq

/-- A report's customer reference, src/model.ts lines 66-69. -/
structure ReportCustomer where
  _id : String
  person_id : String
deriving DecidableEq

/-- `ProjectReport` from src/model.ts lines 44-71. -/
structure ProjectReport where
  _id : String
  project_id : String
  task : List ReportTask
  plan : List ReportPlan
  weather : Option (List WeatherEntry)
  documentation : Option (List Documentation)
  attendance_id : String
  user_id : String
  customer : ReportCustomer
  date : Nat
deriving DecidableEq

/-- The outsource-worker reference, src/model.ts lines 82-85. -/
structure AttendanceOutsource where
  _id : String
  name : String
deriving DecidableEq

/-- One per-user attendance entry, src/model.ts lines 76-86. -/
structure AttendanceUser where
  _id : String
  name : String
  role : String
  entry : Option Int
  exit : Option Int
  outsource : Option AttendanceOutsource
deriving DecidableEq

/-- `ProjectAttendance` from src/model.ts lines 73-88. -/
structure ProjectAttendance where
  _id : String
  project_id : String
  user : List AttendanceUser
  date : Nat
deriving DecidableEq

/-- Modelled from the spec: the error kinds of §7 (the repository ships only
the type declarations; every engine operation below is reconstructed from the
specification text). -/
inductive ValidationError where
  | UnknownTaskReference (taskId : String)
  | DuplicateTaskInReport (taskId : String)
  | OverlappingWeatherInterval
  | InvalidWeatherInterval
  | AttendanceMismatch
  | DuplicateReportDate
  | UnsortedEstimation
  | InvalidAttendanceInterval
deriving DecidableEq

/-- Modelled from the spec: the validated wrapper produced by `validate`
(§4.1); it carries the report unchanged. -/
structure ValidatedReport where
  report : ProjectReport
deriving DecidableEq

/-- Identifiers of the tasks a project owns. -/
def taskIds (p : Project) : List String :=
  p.task.map (fun t => t._id)

/-- All task identifiers referenced by a report's `task` and `plan`
sections. -/
def refIds (r : ProjectReport) : List String :=
  r.task.map (fun t => t._id) ++ r.plan.map (fun q => q.task_id)

/-- Modelled from the spec: check (a) of §4.1 — the first referenced task
identifier that does not exist in `project.task`, if any. -/
def firstUnknown (r : ProjectReport) (p : Project) : Option String :=
  (refIds r).find? (fun i => decide (i ∉ taskIds p))

/-- First element of the second list already seen (in the first list or
earlier in the second). -/
def firstDupAux : List String → List String → Option String
  | _, [] => none
  | seen, x :: xs => if x ∈ seen then some x else firstDupAux (x :: seen) xs

/-- Modelled from the spec: check (b) of §4.1 — the first task identifier
appearing twice in the report's `task` section, if any. -/
def firstDup (l : List String) : Option String :=
  firstDupAux [] l

/-- Modelled from the spec: check (c) of §4.1 — a weather interval is invalid
when start > end or an endpoint lies outside 0–1439 (minute-of-day). -/
def weatherInvalid (l : List WeatherEntry) : Bool :=
  l.any (fun w => decide (w.time.2 < w.time.1 ∨ w.time.1 < 0 ∨ 1439 < w.time.2))

/-- Two closed minute intervals overlap when some minute lies in both. -/
def overlaps (a b : WeatherEntry) : Bool :=
  decide (max a.time.1 b.time.1 ≤ min a.time.2 b.time.2)

/-- Modelled from the spec: check (c) of §4.1 — whether any two weather
intervals of the report overlap. -/
def hasOverlap : List WeatherEntry → Bool
  | [] => false
  | w :: ws => ws.any (fun v => overlaps w v) || hasOverlap ws

/-- Modelled from the spec: check (d) of §4.1 — resolve the report's
attendance reference among the supplied attendance records. -/
def attendanceLookup (r : ProjectReport) (atts : List ProjectAttendance) :
    Option ProjectAttendance :=
  atts.find? (fun a => decide (a._id = r.attendance_id))

/-- Modelled from the spec: check (d) of §4.1 — the resolved attendance
record must carry the report's project identifier and date. -/
def attendanceOk (r : ProjectReport) (atts : List ProjectAttendance) : Bool :=
  match attendanceLookup r atts with
  | none => false
  | some a => decide (a.project_id = r.project_id ∧ a.date = r.date)

/-- Modelled from the spec: `validate(report, project) → ValidatedReport |
ValidationError` (§4.1), running checks (a), (b), (c), (d) in order and
short-circuiting on the first failure. -/
def validate (r : ProjectReport) (p : Project) (atts : List ProjectAttendance) :
    Except ValidationError ValidatedReport :=
  match firstUnknown r p with
  | some i => .error (.UnknownTaskReference i)
  | none =>
    match firstDup (r.task.map (fun t => t._id)) with
    | some i => .error (.DuplicateTaskInReport i)
    | none =>
      if weatherInvalid (r.weather.getD []) then .error .InvalidWeatherInterval
      else if hasOverlap (r.weather.getD []) then .error .OverlappingWeatherInterval
      else if attendanceOk r atts then .ok ⟨r⟩ else .error .AttendanceMismatch

/-- Whether a report's `task` section mentions the task identifier `tid`. -/
def contributes (tid : String) (r : ProjectReport) : Bool :=
  r.task.any (fun rt => decide (rt._id = tid))

/-- Modelled from the spec: the fold behind `aggregate` (§4.2).  Reports are
scanned in the given (chronological) order; each report mentioning the task
contributes its reported value as an incremental addition to the running
cumulative sum, and a contributing report whose date does not strictly exceed
the previous contributing date is rejected with `DuplicateReportDate`. -/
def aggregateAux (tid : String) :
    List ProjectReport → Option Nat → ℚ → Except ValidationError (List (Nat × ℚ))
  | [], _, _ => .ok []
  | r :: rs, lastDate, cum =>
    match r.task.find? (fun rt => decide (rt._id = tid)) with
    | none => aggregateAux tid rs lastDate cum
    | some rt =>
      match lastDate with
      | some d =>
        if r.date ≤ d then .error .DuplicateReportDate
        else (aggregateAux tid rs (some r.date) (cum + rt.value)).map
          (fun tl => (r.date, cum + rt.value) :: tl)
      | none => (aggregateAux tid rs (some r.date) (cum + rt.value)).map
          (fun tl => (r.date, cum + rt.value) :: tl)

/-- Modelled from the spec: `aggregate(task, reports) → ProgressTimeline`
(§4.2), a list of (date, cumulative value) pairs. -/
def aggregate (task : ProjectTask) (reports : List ProjectReport) :
    Except ValidationError (List (Nat × ℚ)) :=
  aggregateAux task._id reports none 0

/-- Dates of the reports whose `task` section mentions `tid`, in input
order. -/
def contributingDates (tid : String) (reports : List ProjectReport) : List Nat :=
  (reports.filter (fun r => contributes tid r)).map (fun r => r.date)

/-- Final cumulative value of a progress timeline (0 when empty). -/
def cumulativeOf (tl : List (Nat × ℚ)) : ℚ :=
  match tl.getLast? with
  | none => 0
  | some p => p.2

/-- Modelled from the spec: the raw unclamped ratio cumulative / volume
surfaced by the aggregator (§4.2). -/
def rawRatio (task : ProjectTask) (tl : List (Nat × ℚ)) : ℚ :=
  cumulativeOf tl / task.volume.value

/-- Modelled from the spec: `percentComplete = min(1.0, cumulative /
volume.value)` (§4.2). -/
def percentComplete (task : ProjectTask) (tl : List (Nat × ℚ)) : ℚ :=
  min 1 (rawRatio task tl)

/-- Modelled from the spec: the latest estimation entry whose date is ≤ `d`
(§4.3); on a date-sorted list this is the step-function value as of `d`. -/
def latestEstimationLE : List Estimation → Nat → Option Estimation
  | [], _ => none
  | e :: rest, d =>
    match latestEstimationLE rest d with
    | some x => some x
    | none => if e.date ≤ d then some e else none

/-- Modelled from the spec: one entry of the `VarianceSeries` (§4.3); `none`
is the explicit `Unknown`. -/
structure VariancePoint where
  date : Nat
  scheduleVariance : Option ℚ
  varianceRatio : Option ℚ
deriving DecidableEq

/-- Modelled from the spec: the variance computed at one report date (§4.3):
`Unknown` when no estimation entry precedes the date; otherwise the schedule
variance actual − planned, and the ratio actual / planned only when
planned > 0. -/
def variancePoint (est : List Estimation) (d : Nat) (actual : ℚ) : VariancePoint :=
  match latestEstimationLE est d with
  | none => ⟨d, none, none⟩
  | some e =>
    ⟨d, some (actual - e.value),
      if 0 < e.value then some (actual / e.value) else none⟩

/-- Modelled from the spec: `variance(timeline, estimation) → VarianceSeries`
(§4.3), one entry per report date, in timeline order. -/
def variance (tl : List (Nat × ℚ)) (est : List Estimation) : List VariancePoint :=
  tl.map (fun p => variancePoint est p.1 p.2)

/-- Modelled from the spec: per-user worked hours (§4.4) — exit − entry when
both are present, `Unknown` (`none`) otherwise. -/
def hoursWorked (u : AttendanceUser) : Option Int :=
  match u.entry, u.exit with
  | some en, some ex => some (ex - en)
  | _, _ => none

/-- Modelled from the spec: an attendance entry is an outsource worker
exactly when its optional outsource reference is present (§4.4). -/
def isOutsourced (u : AttendanceUser) : Bool :=
  u.outsource.isSome

/-- Modelled from the spec: the `AttendanceSummary` of §4.4 — per-user hours
plus the regular / outsourced crew-size counts (distinct identifiers). -/
structure AttendanceSummary where
  hours : List (String × Option Int)
  regularCount : Nat
  outsourcedCount : Nat
deriving DecidableEq

/-- Modelled from the spec: `reconcile(attendance) → AttendanceSummary`
(§4.4). -/
def reconcile (a : ProjectAttendance) : AttendanceSummary :=
  ⟨a.user.map (fun u => (u._id, hoursWorked u)),
    (((a.user.filter (fun u => !isOutsourced u)).map (fun u => u._id)).dedup).length,
    (((a.user.filter (fun u => isOutsourced u)).map (fun u => u._id)).dedup).length⟩

/-- Modelled from the spec: the project-level summary of §4.5 — the weighted
completion figure plus the individual per-task percentages. -/
structure ProjectSummary where
  completion : ℚ
  taskPercent : List (String × ℚ)
deriving DecidableEq

/-- Tasks participating in the weighted average: those whose volume value is
not 0 (§4.5 excludes Volume.value = 0 from numerator and denominator). -/
def weightedEntries (entries : List (ProjectTask × ℚ)) : List (ProjectTask × ℚ) :=
  entries.filter (fun e => decide (e.1.volume.value ≠ 0))

/-- Modelled from the spec: `summarize` (§4.5) — project completion is the
Volume-weighted average of per-task percentComplete over the tasks with
nonzero volume, and every task is still reported individually. -/
def summarize (entries : List (ProjectTask × ℚ)) : ProjectSummary :=
  ⟨((weightedEntries entries).foldr (fun e acc => e.1.volume.value * e.2 + acc) 0) /
      ((weightedEntries entries).foldr (fun e acc => e.1.volume.value + acc) 0),
    entries.map (fun e => (e.1._id, e.2))⟩

/-- A concrete project task used in the concrete evaluations below. -/
def exTask (vol : ℚ) : ProjectTask :=
  ⟨"t1", ⟨"g1", "grp"⟩, "task one", ⟨vol, "m"⟩, none, none, none⟩

/-- A concrete project task with a chosen identifier. -/
def exTaskNamed (i : String) (vol : ℚ) : ProjectTask :=
  ⟨i, ⟨"g1", "grp"⟩, "task", ⟨vol, "m"⟩, none, none, none⟩

/-- A concrete report crediting value `v` to task `t1` on day `d`. -/
def exReport (i : String) (d : Nat) (v : ℚ) : ProjectReport :=
  ⟨i, "p1", [⟨"t1", v, none⟩], [], none, none, "a1", "u1", ⟨"c1", "cp"⟩, d⟩

/-- A concrete attendance record for project `p1` on day 7. -/
def exAttendance : ProjectAttendance :=
  ⟨"a1", "p1", [⟨"bob", "Bob", "welder", some 480, some 1020, none⟩], 7⟩

/-- A concrete project owning task `t1`. -/
def exProject : Project :=
  ⟨[exTask 200], [⟨"alice", "engineer"⟩], "proj", none, ⟨"c1", ⟨"cp", "Cp", "owner"⟩⟩⟩

/-- A concrete attendance entry with both entry and exit times. -/
def u480 : AttendanceUser :=
  ⟨"bob", "Bob", "welder", some 480, some 1020, none⟩

/-- A concrete attendance entry with entry present and exit absent. -/
def uOpen : AttendanceUser :=
  ⟨"carl", "Carl", "welder", some 480, none, none⟩

/-- When no estimation entry has date ≤ d, the step-function lookup is
empty. -/
theorem latestLE_none (est : List Estimation) (d : Nat)
    (h : ∀ e ∈ est, ¬ e.date ≤ d) : latestEstimationLE est d = none := by
  induction est with
  | nil => rfl
  | cons e rest ih =>
    have hrest := ih (fun x hx => h x (List.mem_cons_of_mem _ hx))
    simp [latestEstimationLE, hrest, h e (List.mem_cons_self _ _)]

/-- On a strictly date-sorted estimation list, when some entry has date ≤ d
the lookup returns the entry with the largest such date. -/
theorem latestLE_some (est : List Estimation) (d : Nat)
    (hs : est.Pairwise (fun a b => a.date < b.date))
    (hex : ∃ e0 ∈ est, e0.date ≤ d) :
    ∃ e, latestEstimationLE est d = some e ∧ e ∈ est ∧ e.date ≤ d ∧
      ∀ e' ∈ est, e'.date ≤ d → e'.date ≤ e.date := by
  induction est with
  | nil =>
    obtain ⟨e0, h0, _⟩ := hex
    simp at h0
  | cons a rest ih =>
    rw [List.pairwise_cons] at hs
    obtain ⟨ha, hrest⟩ := hs
    by_cases hex2 : ∃ e1 ∈ rest, e1.date ≤ d
    · obtain ⟨e, heq, hmem, hled, hmax⟩ := ih hrest hex2
      refine ⟨e, ?_, List.mem_cons_of_mem _ hmem, hled, ?_⟩
      · simp [latestEstimationLE, heq]
      · intro e' he' hde'
        rcases List.mem_cons.mp he' with rfl | hmem'
        · exact le_of_lt (ha e hmem)
        · exact hmax e' hmem' hde'
    · simp only [not_exists, not_and] at hex2
      have hnone := latestLE_none rest d hex2
      obtain ⟨e0, h0, hd0⟩ := hex
      rcases List.mem_cons.mp h0 with rfl | hmem0
      · refine ⟨e0, ?_, List.mem_cons_self _ _, hd0, ?_⟩
        · simp [latestEstimationLE, hnone, hd0]
        · intro e' he' hde'
          rcases List.mem_cons.mp he' with rfl | hm
          · exact le_refl _
          · exact absurd hde' (hex2 e' hm)
      · exact absurd hd0 (hex2 e0 hmem0)

/-- The variance point at date `d` carries date `d`. -/
theorem variancePoint_date (est : List Estimation) (d : Nat) (a : ℚ) :
    (variancePoint est d a).date = d := by
  cases h : latestEstimationLE est d <;> simp [variancePoint, h]

/-- C1: for every progress timeline and every (strictly date-sorted)
estimation sequence, the variance series has exactly one entry per report
date in timeline order; at a report date with no estimation entry of date ≤ d
the point is Unknown/Unknown; otherwise the point is computed from the latest
estimation entry with date ≤ d as scheduleVariance = actual − planned, with
varianceRatio = actual / planned only when planned > 0 and Unknown when
planned = 0. -/
theorem C1_variance_spec (tl : List (Nat × ℚ)) (est : List Estimation)
    (hs : est.Pairwise (fun a b => a.date < b.date)) :
    variance tl est = tl.map (fun q => variancePoint est q.1 q.2) ∧
    (variance tl est).map (fun v => v.date) = tl.map (fun q => q.1) ∧
    ∀ d a, (d, a) ∈ tl →
      ((∀ e ∈ est, ¬ e.date ≤ d) → variancePoint est d a = ⟨d, none, none⟩) ∧
      ((∃ e0 ∈ est, e0.date ≤ d) →
        ∃ e, e ∈ est ∧ e.date ≤ d ∧
          (∀ e' ∈ est, e'.date ≤ d → e'.date ≤ e.date) ∧
          variancePoint est d a =
            ⟨d, some (a - e.value),
              if 0 < e.value then some (a / e.value) else none⟩) := by
  refine ⟨rfl, ?_, ?_⟩
  · simp [variance, variancePoint_date]
  · intro d a _
    constructor
    · intro h
      simp [variancePoint, latestLE_none est d h]
    · intro hex
      obtain ⟨e, heq, hmem, hled, hmax⟩ := latestLE_some est d hs hex
      exact ⟨e, hmem, hled, hmax, by simp [variancePoint, heq]⟩

/-- C1 witness: the spec's worked example — estimation [(day1, 100),
(day5, 500)] and a report on day 3 with cumulative 150 uses planned = 100,
giving scheduleVariance = +50 and ratio 150/100. -/
theorem C1_witness :
    ([⟨1, 100⟩, ⟨5, 500⟩] : List Estimation).Pairwise (fun a b => a.date < b.date) ∧
    (variance [(3, 150)] [⟨1, 100⟩, ⟨5, 500⟩] =
        [(3, (150 : ℚ))].map (fun q => variancePoint [⟨1, 100⟩, ⟨5, 500⟩] q.1 q.2) ∧
      (variance [(3, 150)] [⟨1, 100⟩, ⟨5, 500⟩]).map (fun v => v.date) =
        [((3 : Nat), (150 : ℚ))].map (fun q => q.1) ∧
      ∀ d a, (d, a) ∈ [((3 : Nat), (150 : ℚ))] →
        ((∀ e ∈ ([⟨1, 100⟩, ⟨5, 500⟩] : List Estimation), ¬ e.date ≤ d) →
          variancePoint [⟨1, 100⟩, ⟨5, 500⟩] d a = ⟨d, none, none⟩) ∧
        ((∃ e0 ∈ ([⟨1, 100⟩, ⟨5, 500⟩] : List Estimation), e0.date ≤ d) →
          ∃ e, e ∈ ([⟨1, 100⟩, ⟨5, 500⟩] : List Estimation) ∧ e.date ≤ d ∧
            (∀ e' ∈ ([⟨1, 100⟩, ⟨5, 500⟩] : List Estimation), e'.date ≤ d → e'.date ≤ e.date) ∧
            variancePoint [⟨1, 100⟩, ⟨5, 500⟩] d a =
              ⟨d, some (a - e.value),
                if 0 < e.value then some (a / e.value) else none⟩)) ∧
    variancePoint [⟨1, 100⟩, ⟨5, 500⟩] 3 150 = ⟨3, some 50, some (3 / 2)⟩ :=
  ⟨by decide, C1_variance_spec _ _ (by decide), by
    simp [variancePoint, latestEstimationLE]
    norm_num⟩

/-- C2: for every task with positive volume and every aggregated timeline,
percentComplete is min(1, cumulative / volume.value) — hence never exceeds
1 even when the cumulative exceeds the volume target — and the raw unclamped
ratio cumulative / volume.value is exposed alongside it. -/
theorem C2_percent_complete (task : ProjectTask) (tl : List (Nat × ℚ))
    (hv : 0 < task.volume.value) :
    percentComplete task tl = min 1 (cumulativeOf tl / task.volume.value) ∧
    rawRatio task tl = cumulativeOf tl / task.volume.value ∧
    percentComplete task tl ≤ 1 ∧
    (task.volume.value < cumulativeOf tl → percentComplete task tl = 1) := by
  refine ⟨rfl, rfl, min_le_left _ _, ?_⟩
  intro hlt
  have h1 : 1 < cumulativeOf tl / task.volume.value := (one_lt_div hv).mpr hlt
  simp [percentComplete, rawRatio, min_eq_left (le_of_lt h1)]

/-- C2 witness: the spec's worked example — volume 200 and cumulative 250
give clamped percentComplete 1 while the unclamped ratio is 1.25. -/
theorem C2_witness :
    (0 : ℚ) < (exTask 200).volume.value ∧
    percentComplete (exTask 200) [(1, 250)] = 1 ∧
    rawRatio (exTask 200) [(1, 250)] = 5 / 4 := by
  have h := C2_percent_complete (exTask 200) [(1, 250)] (by norm_num [exTask])
  refine ⟨by norm_num [exTask], ?_, ?_⟩
  · exact h.2.2.2 (by norm_num [exTask, cumulativeOf])
  · rw [h.2.1]
    norm_num [exTask, cumulativeOf]

/-- Check (a) passes exactly when every referenced task identifier exists in
the project. -/
theorem firstUnknown_eq_none (r : ProjectReport) (p : Project) :
    firstUnknown r p = none ↔ ∀ i ∈ refIds r, i ∈ taskIds p := by
  simp [firstUnknown, List.find?_eq_none]

/-- The duplicate scan returns nothing exactly when the list (joined with the
already-seen prefix) has no repetition. -/
theorem firstDupAux_eq_none :
    ∀ (l : List String) (seen : List String),
      firstDupAux seen l = none ↔ (l.Nodup ∧ ∀ x ∈ l, x ∉ seen) := by
  intro l
  induction l with
  | nil => intro seen; simp [firstDupAux]
  | cons x xs ih =>
    intro seen
    by_cases hx : x ∈ seen
    · simp only [firstDupAux, if_pos hx]
      constructor
      · intro h; exact absurd h (Option.some_ne_none x)
      · rintro ⟨-, h2⟩
        exact absurd hx (h2 x (List.mem_cons_self _ _))
    · simp only [firstDupAux, if_neg hx, ih (x :: seen), List.nodup_cons]
      constructor
      · rintro ⟨hnd, hni⟩
        refine ⟨⟨fun hxxs => (hni x hxxs) (List.mem_cons_self _ _), hnd⟩, ?_⟩
        intro y hy
        rcases List.mem_cons.mp hy with rfl | hm
        · exact hx
        · exact fun hys => (hni y hm) (List.mem_cons_of_mem _ hys)
      · rintro ⟨⟨hxxs, hnd⟩, hni⟩
        refine ⟨hnd, ?_⟩
        intro y hy hyc
        rcases List.mem_cons.mp hyc with rfl | hys
        · exact hxxs hy
        · exact (hni y (List.mem_cons_of_mem _ hy)) hys

/-- Check (b) passes exactly when the report's task identifiers are all
distinct. -/
theorem firstDup_eq_none (l : List String) : firstDup l = none ↔ l.Nodup := by
  rw [firstDup, firstDupAux_eq_none]
  simp

/-- Check (c), first half: no interval is flagged invalid exactly when every
interval has start ≤ end with both endpoints inside 0–1439. -/
theorem weatherInvalid_eq_false (l : List WeatherEntry) :
    weatherInvalid l = false ↔
      ∀ w ∈ l, w.time.1 ≤ w.time.2 ∧ 0 ≤ w.time.1 ∧ w.time.2 ≤ 1439 := by
  simp only [weatherInvalid, List.any_eq_false, decide_eq_true_eq]
  constructor <;> intro h w hw <;> have := h w hw <;> omega

/-- The Boolean overlap test fails exactly when the closed intervals are
disjoint. -/
theorem overlaps_eq_false (a b : WeatherEntry) :
    overlaps a b = false ↔ min a.time.2 b.time.2 < max a.time.1 b.time.1 := by
  simp only [overlaps, decide_eq_false_iff_not, not_le]

/-- Check (c), second half: the pairwise scan passes exactly when every two
intervals are disjoint. -/
theorem hasOverlap_eq_false (l : List WeatherEntry) :
    hasOverlap l = false ↔
      l.Pairwise (fun a b => min a.time.2 b.time.2 < max a.time.1 b.time.1) := by
  induction l with
  | nil => simp [hasOverlap]
  | cons w ws ih =>
    simp only [hasOverlap, Bool.or_eq_false_iff, List.any_eq_false,
      List.pairwise_cons, ih]
    constructor
    · rintro ⟨h1, h2⟩
      exact ⟨fun v hv => (overlaps_eq_false w v).mp (by simpa using h1 v hv), h2⟩
    · rintro ⟨h1, h2⟩
      exact ⟨fun v hv => by simpa using (overlaps_eq_false w v).mpr (h1 v hv), h2⟩

/-- Check (d) passes exactly when the attendance reference resolves and the
resolved record matches the report's project identifier and date. -/
theorem attendanceOk_eq_true (r : ProjectReport) (atts : List ProjectAttendance) :
    attendanceOk r atts = true ↔
      ∃ a, attendanceLookup r atts = some a ∧
        a.project_id = r.project_id ∧ a.date = r.date := by
  cases h : attendanceLookup r atts with
  | none => simp [attendanceOk, h]
  | some a => simp [attendanceOk, h]

/-- C3: `validate` performs checks (a) unknown references, (b) duplicate task
entries, (c) weather-interval validity and disjointness, (d) attendance
resolution, in that order, short-circuiting with the matching error; it
succeeds exactly when all four semantic conditions hold, and on success it
returns the report wrapped unchanged (being a pure function, it has no other
effect). -/
theorem C3_validate (r : ProjectReport) (p : Project) (atts : List ProjectAttendance) :
    (∀ i, firstUnknown r p = some i →
      validate r p atts = .error (.UnknownTaskReference i)) ∧
    (firstUnknown r p = none →
      ∀ i, firstDup (r.task.map fun t => t._id) = some i →
        validate r p atts = .error (.DuplicateTaskInReport i)) ∧
    (firstUnknown r p = none → firstDup (r.task.map fun t => t._id) = none →
      weatherInvalid (r.weather.getD []) = true →
        validate r p atts = .error .InvalidWeatherInterval) ∧
    (firstUnknown r p = none → firstDup (r.task.map fun t => t._id) = none →
      weatherInvalid (r.weather.getD []) = false →
        hasOverlap (r.weather.getD []) = true →
          validate r p atts = .error .OverlappingWeatherInterval) ∧
    (firstUnknown r p = none → firstDup (r.task.map fun t => t._id) = none →
      weatherInvalid (r.weather.getD []) = false →
        hasOverlap (r.weather.getD []) = false →
          attendanceOk r atts = false →
            validate r p atts = .error .AttendanceMismatch) ∧
    (validate r p atts = .ok ⟨r⟩ ↔
      ((∀ i ∈ refIds r, i ∈ taskIds p) ∧
        (r.task.map fun t => t._id).Nodup ∧
        (∀ w ∈ r.weather.getD [],
          w.time.1 ≤ w.time.2 ∧ 0 ≤ w.time.1 ∧ w.time.2 ≤ 1439) ∧
        (r.weather.getD []).Pairwise
          (fun a b => min a.time.2 b.time.2 < max a.time.1 b.time.1) ∧
        (∃ a, attendanceLookup r atts = some a ∧
          a.project_id = r.project_id ∧ a.date = r.date))) ∧
    (∀ w, validate r p atts = .ok w → w.report = r) := by
  refine ⟨?_, ?_, ?_, ?_, ?_, ?_, ?_⟩
  · intro i h; simp [validate, h]
  · intro h0 i h1; simp [validate, h0, h1]
  · intro h0 h1 h2; simp [validate, h0, h1, h2]
  · intro h0 h1 h2 h3; simp [validate, h0, h1, h2, h3]
  · intro h0 h1 h2 h3 h4; simp [validate, h0, h1, h2, h3, h4]
  · constructor
    · intro hok
      cases h0 : firstUnknown r p with
      | some i => simp [validate, h0] at hok
      | none =>
        cases h1 : firstDup (r.task.map fun t => t._id) with
        | some i => simp [validate, h0, h1] at hok
        | none =>
          cases h2 : weatherInvalid (r.weather.getD []) with
          | true => simp [validate, h0, h1, h2] at hok
          | false =>
            cases h3 : hasOverlap (r.weather.getD []) with
            | true => simp [validate, h0, h1, h2, h3] at hok
            | false =>
              cases h4 : attendanceOk r atts with
              | false => simp [validate, h0, h1, h2, h3, h4] at hok
              | true =>
                exact ⟨(firstUnknown_eq_none r p).mp h0,
                  (firstDup_eq_none _).mp h1,
                  (weatherInvalid_eq_false _).mp h2,
                  (hasOverlap_eq_false _).mp h3,
                  (attendanceOk_eq_true r atts).mp h4⟩
    · rintro ⟨s1, s2, s3, s4, s5⟩
      have h0 := (firstUnknown_eq_none r p).mpr s1
      have h1 := (firstDup_eq_none _).mpr s2
      have h2 := (weatherInvalid_eq_false _).mpr s3
      have h3 := (hasOverlap_eq_false _).mpr s4
      have h4 := (attendanceOk_eq_true r atts).mpr s5
      simp [validate, h0, h1, h2, h3, h4]
  · intro w hw
    cases h0 : firstUnknown r p with
    | some i => simp [validate, h0] at hw
    | none =>
      cases h1 : firstDup (r.task.map fun t => t._id) with
      | some i => simp [validate, h0, h1] at hw
      | none =>
        cases h2 : weatherInvalid (r.weather.getD []) with
        | true => simp [validate, h0, h1, h2] at hw
        | false =>
          cases h3 : hasOverlap (r.weather.getD []) with
          | true => simp [validate, h0, h1, h2, h3] at hw
          | false =>
            cases h4 : attendanceOk r atts with
            | false => simp [validate, h0, h1, h2, h3, h4] at hw
            | true =>
              simp [validate, h0, h1, h2, h3, h4] at hw
              simp [← hw]

/-- C3 witness: a concrete well-formed report (task `t1`, date 7, attendance
`a1` of project `p1` on day 7) validates to the wrapped report. -/
theorem C3_witness :
    validate (exReport "r7" 7 5) exProject [exAttendance] = .ok ⟨exReport "r7" 7 5⟩ := by
  refine ((C3_validate (exReport "r7" 7 5) exProject [exAttendance]).2.2.2.2.2.1).mpr
    ⟨?_, ?_, ?_, ?_, ⟨exAttendance, rfl, rfl, rfl⟩⟩
  · decide
  · decide
  · simp [exReport]
  · simp [exReport]

/-- Mapping over an `Except` yields `ok` exactly when the underlying value
does. -/
theorem except_map_ok {ε α β : Type} (f : α → β) (x : Except ε α) (y : β) :
    x.map f = .ok y ↔ ∃ a, x = .ok a ∧ y = f a := by
  cases x <;> simp [Except.map, eq_comm]

/-- Mapping over an `Except` preserves errors exactly. -/
theorem except_map_error {ε α β : Type} (f : α → β) (x : Except ε α) (e : ε) :
    x.map f = .error e ↔ x = .error e := by
  cases x <;> simp [Except.map]

/-- The only error the aggregation fold ever raises is
`DuplicateReportDate`. -/
theorem aggAux_error (tid : String) :
    ∀ (reports : List ProjectReport) (lastDate : Option Nat) (cum : ℚ)
      (e : ValidationError),
      aggregateAux tid reports lastDate cum = .error e →
      e = .DuplicateReportDate := by
  intro reports
  induction reports with
  | nil => intro lastDate cum e h; simp [aggregateAux] at h
  | cons r rs ih =>
    intro lastDate cum e h
    cases hfind : r.task.find? (fun rt => decide (rt._id = tid)) with
    | none =>
      simp only [aggregateAux, hfind] at h
      exact ih _ _ _ h
    | some rt =>
      cases lastDate with
      | none =>
        simp only [aggregateAux, hfind] at h
        rw [except_map_error] at h
        exact ih _ _ _ h
      | some d =>
        simp only [aggregateAux, hfind] at h
        by_cases hle : r.date ≤ d
        · rw [if_pos hle] at h
          exact (Except.error.inj h).symm
        · rw [if_neg hle, except_map_error] at h
          exact ih _ _ _ h

/-- On success, the timeline's dates are exactly the dates of the reports
mentioning the task, in input order. -/
theorem aggAux_ok_dates (tid : String) :
    ∀ (reports : List ProjectReport) (lastDate : Option Nat) (cum : ℚ)
      (tl : List (Nat × ℚ)),
      aggregateAux tid reports lastDate cum = .ok tl →
      tl.map (fun q => q.1) =
        (reports.filter (fun r => contributes tid r)).map (fun r => r.date) := by
  intro reports
  induction reports with
  | nil =>
    intro lastDate cum tl h
    simp [aggregateAux] at h
    subst h
    simp
  | cons r rs ih =>
    intro lastDate cum tl h
    cases hfind : r.task.find? (fun rt => decide (rt._id = tid)) with
    | none =>
      have hc : contributes tid r = false := by
        have hall := List.find?_eq_none.mp hfind
        simp only [contributes, List.any_eq_false]
        intro x hx
        simpa using hall x hx
      simp only [aggregateAux, hfind] at h
      simp [List.filter_cons, hc, ih _ _ _ h]
    | some rt =>
      have hc : contributes tid r = true := by
        have h1 := List.mem_of_find?_eq_some hfind
        have h2 := List.find?_some hfind
        simp only [contributes, List.any_eq_true]
        exact ⟨rt, h1, h2⟩
      cases lastDate with
      | none =>
        simp only [aggregateAux, hfind] at h
        rw [except_map_ok] at h
        obtain ⟨tl', h', htl⟩ := h
        subst htl
        simp [List.filter_cons, hc, ih _ _ _ h']
      | some d =>
        simp only [aggregateAux, hfind] at h
        by_cases hle : r.date ≤ d
        · rw [if_pos hle] at h
          simp at h
        · rw [if_neg hle, except_map_ok] at h
          obtain ⟨tl', h', htl⟩ := h
          subst htl
          simp [List.filter_cons, hc, ih _ _ _ h']

/-- On success, the timeline's dates are strictly increasing, and all exceed
the date carried in the accumulator. -/
theorem aggAux_ok_chain (tid : String) :
    ∀ (reports : List ProjectReport) (lastDate : Option Nat) (cum : ℚ)
      (tl : List (Nat × ℚ)),
      aggregateAux tid reports lastDate cum = .ok tl →
      List.Chain' (· < ·) (tl.map fun q => q.1) ∧
      ∀ d0, lastDate = some d0 → ∀ x ∈ tl.map (fun q => q.1), d0 < x := by
  intro reports
  induction reports with
  | nil =>
    intro lastDate cum tl h
    simp [aggregateAux] at h
    subst h
    simp
  | cons r rs ih =>
    intro lastDate cum tl h
    cases hfind : r.task.find? (fun rt => decide (rt._id = tid)) with
    | none =>
      simp only [aggregateAux, hfind] at h
      exact ih _ _ _ h
    | some rt =>
      cases lastDate with
      | none =>
        simp only [aggregateAux, hfind] at h
        rw [except_map_ok] at h
        obtain ⟨tl', h', htl⟩ := h
        subst htl
        obtain ⟨hch, hbd⟩ := ih _ _ _ h'
        refine ⟨?_, ?_⟩
        · rw [List.map_cons]
          refine List.chain'_cons'.mpr ⟨?_, hch⟩
          intro y hy
          exact hbd r.date rfl y (List.mem_of_mem_head? hy)
        · intro d0 hd0
          simp at hd0
      | some d =>
        simp only [aggregateAux, hfind] at h
        by_cases hle : r.date ≤ d
        · rw [if_pos hle] at h
          simp at h
        · rw [if_neg hle, except_map_ok] at h
          obtain ⟨tl', h', htl⟩ := h
          subst htl
          obtain ⟨hch, hbd⟩ := ih _ _ _ h'
          have hbd' := hbd r.date rfl
          refine ⟨?_, ?_⟩
          · rw [List.map_cons]
            refine List.chain'_cons'.mpr ⟨?_, hch⟩
            intro y hy
            exact hbd' y (List.mem_of_mem_head? hy)
          · intro d0 hd0 x hx
            obtain rfl := Option.some.inj hd0
            rw [List.map_cons] at hx
            rcases List.mem_cons.mp hx with rfl | hx'
            · exact not_le.mp hle
            · exact lt_trans (not_le.mp hle) (hbd' x hx')

/-- On success, when every value the reports credit to the task is
non-negative, cumulative values are non-decreasing and bounded below by the
accumulator. -/
theorem aggAux_ok_mono (tid : String) :
    ∀ (reports : List ProjectReport) (lastDate : Option Nat) (cum : ℚ)
      (tl : List (Nat × ℚ)),
      (∀ r ∈ reports, ∀ rt ∈ r.task, rt._id = tid → 0 ≤ rt.value) →
      aggregateAux tid reports lastDate cum = .ok tl →
      List.Chain' (· ≤ ·) (tl.map fun q => q.2) ∧
      ∀ x ∈ tl.map (fun q => q.2), cum ≤ x := by
  intro reports
  induction reports with
  | nil =>
    intro lastDate cum tl _ h
    simp [aggregateAux] at h
    subst h
    simp
  | cons r rs ih =>
    intro lastDate cum tl hv h
    have hv' : ∀ r' ∈ rs, ∀ rt ∈ r'.task, rt._id = tid → 0 ≤ rt.value :=
      fun r' hr' => hv r' (List.mem_cons_of_mem _ hr')
    cases hfind : r.task.find? (fun rt => decide (rt._id = tid)) with
    | none =>
      simp only [aggregateAux, hfind] at h
      exact ih _ _ _ hv' h
    | some rt =>
      have hrt : (0 : ℚ) ≤ rt.value := by
        have h1 := List.mem_of_find?_eq_some hfind
        have h2 := List.find?_some hfind
        exact hv r (List.mem_cons_self _ _) rt h1 (by simpa using h2)
      cases lastDate with
      | none =>
        simp only [aggregateAux, hfind] at h
        rw [except_map_ok] at h
        obtain ⟨tl', h', htl⟩ := h
        subst htl
        obtain ⟨hch, hbd⟩ := ih _ _ _ hv' h'
        refine ⟨?_, ?_⟩
        · rw [List.map_cons]
          refine List.chain'_cons'.mpr ⟨?_, hch⟩
          intro y hy
          exact hbd y (List.mem_of_mem_head? hy)
        · intro x hx
          rw [List.map_cons] at hx
          rcases List.mem_cons.mp hx with rfl | hx'
          · exact le_add_of_nonneg_right hrt
          · exact le_trans (le_add_of_nonneg_right hrt) (hbd x hx')
      | some d =>
        simp only [aggregateAux, hfind] at h
        by_cases hle : r.date ≤ d
        · rw [if_pos hle] at h
          simp at h
        · rw [if_neg hle, except_map_ok] at h
          obtain ⟨tl', h', htl⟩ := h
          subst htl
          obtain ⟨hch, hbd⟩ := ih _ _ _ hv' h'
          refine ⟨?_, ?_⟩
          · rw [List.map_cons]
            refine List.chain'_cons'.mpr ⟨?_, hch⟩
            intro y hy
            exact hbd y (List.mem_of_mem_head? hy)
          · intro x hx
            rw [List.map_cons] at hx
            rcases List.mem_cons.mp hx with rfl | hx'
            · exact le_add_of_nonneg_right hrt
            · exact le_trans (le_add_of_nonneg_right hrt) (hbd x hx')

/-- C4 counterexample: the aggregator accepts a report sequence containing a
negative incremental value (nothing in the validator or the fold rejects it),
and the resulting cumulative values decrease — timeline [(1, 5), (2, 2)] from
increments 5 then −3. -/
theorem C4_counterexample :
    aggregate (exTask 200) [exReport "r1" 1 5, exReport "r2" 2 (-3)] =
      .ok [(1, 5), (2, 2)] ∧
    ¬ List.Chain' (· ≤ ·) ([((1 : Nat), (5 : ℚ)), (2, 2)].map fun q => q.2) := by
  constructor
  · simp [aggregate, aggregateAux, exTask, exReport, Except.map]
    norm_num
  · simp only [List.map_cons, List.map_nil, List.chain'_cons, List.chain'_singleton,
      and_true]
    norm_num

/-- C4 (amended): for every task and every report sequence accepted by
aggregation in which all values credited to the task are non-negative, the
cumulative values of the resulting timeline are non-decreasing in date
order. -/
theorem C4_amended (task : ProjectTask) (reports : List ProjectReport)
    (hv : ∀ r ∈ reports, ∀ rt ∈ r.task, rt._id = task._id → 0 ≤ rt.value) :
    ∀ tl, aggregate task reports = .ok tl →
      List.Chain' (· ≤ ·) (tl.map fun q => q.2) :=
  fun tl h => (aggAux_ok_mono task._id reports none 0 tl hv h).1

/-- C4 witness: non-negative increments 5 then 3 give the non-decreasing
cumulative timeline [(1, 5), (2, 8)]. -/
theorem C4_witness :
    (∀ r ∈ [exReport "r1" 1 5, exReport "r2" 2 3], ∀ rt ∈ r.task,
      rt._id = (exTask 200)._id → 0 ≤ rt.value) ∧
    List.Chain' (· ≤ ·) ([((1 : Nat), (5 : ℚ)), (2, 8)].map fun q => q.2) :=
  ⟨by decide, C4_amended (exTask 200) [exReport "r1" 1 5, exReport "r2" 2 3]
    (by decide) [(1, 5), (2, 8)]
    (by simp [aggregate, aggregateAux, exTask, exReport, Except.map]; norm_num)⟩

/-- C7: on a successfully aggregated sequence the contributing report dates
are strictly increasing (hence pairwise distinct); when they are not — in
particular when two reports credit the task on the same date, so that date's
multiplicity is ≥ 2 — aggregation rejects with `DuplicateReportDate`. -/
theorem C7_duplicate_date (task : ProjectTask) (reports : List ProjectReport) :
    (∀ tl, aggregate task reports = .ok tl →
      (contributingDates task._id reports).Pairwise (· < ·)) ∧
    (¬ (contributingDates task._id reports).Pairwise (· < ·) →
      aggregate task reports = .error .DuplicateReportDate) ∧
    (∀ d : Nat, 2 ≤ (contributingDates task._id reports).count d →
      aggregate task reports = .error .DuplicateReportDate) := by
  have hok : ∀ tl, aggregate task reports = .ok tl →
      (contributingDates task._id reports).Pairwise (· < ·) := by
    intro tl h
    have hd := aggAux_ok_dates task._id reports none 0 tl h
    have hc := (aggAux_ok_chain task._id reports none 0 tl h).1
    rw [hd] at hc
    exact List.chain'_iff_pairwise.mp hc
  have herr : ¬ (contributingDates task._id reports).Pairwise (· < ·) →
      aggregate task reports = .error .DuplicateReportDate := by
    intro hnp
    cases hagg : aggregate task reports with
    | ok tl => exact absurd (hok tl hagg) hnp
    | error e =>
      have he := aggAux_error task._id reports none 0 e hagg
      rw [he]
  refine ⟨hok, herr, ?_⟩
  intro d hcount
  apply herr
  intro hp
  have hnd : (contributingDates task._id reports).Nodup :=
    hp.imp fun h => ne_of_lt h
  have := List.nodup_iff_count_le_one.mp hnd d
  omega

/-- C7 witness: two distinct reports crediting task `t1` on the same day 3
make aggregation fail with `DuplicateReportDate`. -/
theorem C7_witness :
    2 ≤ (contributingDates (exTask 200)._id
      [exReport "r1" 3 5, exReport "r2" 3 4]).count 3 ∧
    aggregate (exTask 200) [exReport "r1" 3 5, exReport "r2" 3 4] =
      .error .DuplicateReportDate :=
  ⟨by decide,
    (C7_duplicate_date (exTask 200) [exReport "r1" 3 5, exReport "r2" 3 4]).2.2 3
      (by decide)⟩

/-- C5: for every attendance user entry, worked hours equal exit − entry (in
the entry/exit minute unit) when both are present, and are Unknown (`none`,
never `some 0`) when either is missing; `reconcile` reports exactly this per
entry. -/
theorem C5_hours (u : AttendanceUser) :
    (∀ en ex, u.entry = some en → u.exit = some ex →
      hoursWorked u = some (ex - en)) ∧
    (u.entry = none ∨ u.exit = none → hoursWorked u = none) ∧
    (∀ a : ProjectAttendance, u ∈ a.user →
      (u._id, hoursWorked u) ∈ (reconcile a).hours) := by
  refine ⟨?_, ?_, ?_⟩
  · intro en ex he hx
    simp [hoursWorked, he, hx]
  · intro h
    rcases h with h | h
    · simp [hoursWorked, h]
    · cases hu : u.entry <;> simp [hoursWorked, h, hu]
  · intro a ha
    exact List.mem_map.mpr ⟨u, ha, rfl⟩

/-- C5 witness: the spec's example — entry 480, exit 1020 give 540 minutes;
entry present with exit absent gives Unknown, not 0. -/
theorem C5_witness :
    u480.entry = some 480 ∧ u480.exit = some 1020 ∧
    hoursWorked u480 = some ((1020 : Int) - 480) ∧ (1020 : Int) - 480 = 540 ∧
    uOpen.exit = none ∧ hoursWorked uOpen = none :=
  ⟨rfl, rfl, (C5_hours u480).1 480 1020 rfl rfl, by decide, rfl,
    (C5_hours uOpen).2.1 (Or.inr rfl)⟩

/-- C6: for a project with at least one positive-volume task, the summary's
completion is the Volume-weighted average over exactly the tasks with nonzero
volume — zero-volume tasks are excluded from numerator and denominator — yet
every task, zero-volume included, is still reported individually. -/
theorem C6_summarize (entries : List (ProjectTask × ℚ))
    (h : ∃ e ∈ entries, 0 < e.1.volume.value) :
    weightedEntries entries ≠ [] ∧
    (summarize entries).completion =
      ((weightedEntries entries).foldr (fun e acc => e.1.volume.value * e.2 + acc) 0) /
        ((weightedEntries entries).foldr (fun e acc => e.1.volume.value + acc) 0) ∧
    (∀ e ∈ entries, e.1.volume.value = 0 → e ∉ weightedEntries entries) ∧
    (∀ e ∈ entries, e.1.volume.value ≠ 0 → e ∈ weightedEntries entries) ∧
    (∀ e ∈ entries, (e.1._id, e.2) ∈ (summarize entries).taskPercent) := by
  obtain ⟨e0, he0, hv0⟩ := h
  refine ⟨?_, rfl, ?_, ?_, ?_⟩
  · have hmem : e0 ∈ weightedEntries entries :=
      List.mem_filter.mpr ⟨he0, by simp only [decide_eq_true_eq]; exact ne_of_gt hv0⟩
    exact List.ne_nil_of_mem hmem
  · intro e _ hz hmem
    have hp := (List.mem_filter.mp hmem).2
    simp only [decide_eq_true_eq] at hp
    exact hp hz
  · intro e he hnz
    exact List.mem_filter.mpr ⟨he, by simpa using hnz⟩
  · intro e he
    exact List.mem_map.mpr ⟨e, he, rfl⟩

/-- C6 witness: the spec's example — volumes 100 and 300 with percent
complete 1 and 1/2 give weighted completion (100·1 + 300·0.5)/400 = 5/8. -/
theorem C6_witness :
    (∃ e ∈ [(exTaskNamed "a" 100, (1 : ℚ)), (exTaskNamed "b" 300, 1 / 2)],
      0 < e.1.volume.value) ∧
    weightedEntries [(exTaskNamed "a" 100, (1 : ℚ)), (exTaskNamed "b" 300, 1 / 2)] ≠ [] ∧
    (summarize [(exTaskNamed "a" 100, (1 : ℚ)), (exTaskNamed "b" 300, 1 / 2)]).completion
      = 5 / 8 := by
  have h : ∃ e ∈ [(exTaskNamed "a" 100, (1 : ℚ)), (exTaskNamed "b" 300, 1 / 2)],
      0 < e.1.volume.value :=
    ⟨(exTaskNamed "a" 100, 1), by simp, by norm_num [exTaskNamed]⟩
  refine ⟨h, (C6_summarize _ h).1, ?_⟩
  norm_num [summarize, weightedEntries, exTaskNamed, List.filter_cons]

/-- C8: every engine operation is deterministic — two invocations with equal
inputs produce equal outputs (the embedding's operations are pure functions
of their arguments, so they cannot mutate their inputs). -/
theorem C8_deterministic
    (r1 r2 : ProjectReport) (p1 p2 : Project) (l1 l2 : List ProjectAttendance)
    (t1 t2 : ProjectTask) (rs1 rs2 : List ProjectReport)
    (tl1 tl2 : List (Nat × ℚ)) (es1 es2 : List Estimation)
    (a1 a2 : ProjectAttendance) (en1 en2 : List (ProjectTask × ℚ))
    (hr : r1 = r2) (hp : p1 = p2) (hl : l1 = l2) (ht : t1 = t2)
    (hrs : rs1 = rs2) (htl : tl1 = tl2) (hes : es1 = es2) (ha : a1 = a2)
    (hen : en1 = en2) :
    validate r1 p1 l1 = validate r2 p2 l2 ∧
    aggregate t1 rs1 = aggregate t2 rs2 ∧
    variance tl1 es1 = variance tl2 es2 ∧
    reconcile a1 = reconcile a2 ∧
    summarize en1 = summarize en2 := by
  subst hr hp hl ht hrs htl hes ha hen
  exact ⟨rfl, rfl, rfl, rfl, rfl⟩

/-- C8 witness: re-invocation on concrete equal inputs gives equal outputs
for all five operations. -/
theorem C8_witness :
    validate (exReport "r7" 7 5) exProject [exAttendance] =
      validate (exReport "r7" 7 5) exProject [exAttendance] ∧
    aggregate (exTask 200) [exReport "r1" 1 5] =
      aggregate (exTask 200) [exReport "r1" 1 5] ∧
    variance [(3, 150)] [⟨1, 100⟩] = variance [(3, 150)] [⟨1, 100⟩] ∧
    reconcile exAttendance = reconcile exAttendance ∧
    summarize [(exTask 200, 1)] = summarize [(exTask 200, 1)] := by
  apply C8_deterministic <;> rfl

/-- C9: every `ProjectTask` carries a total volume field (a numeric value and
a unit string) — so the denominator of the completion ratio always exists,
though it may be 0 — while cost, estimation and report_id may each be
absent. -/
theorem C9_volume_total :
    (∀ t : ProjectTask, ∃ v : ℚ, ∃ u : String, t.volume = ⟨v, u⟩) ∧
    (∀ (t : ProjectTask) (tl : List (Nat × ℚ)),
      rawRatio t tl = cumulativeOf tl / t.volume.value) ∧
    (∃ t : ProjectTask, t.cost = none ∧ t.estimation = none ∧
      t.report_id = none ∧ t.volume.value = 0) :=
  ⟨fun t => ⟨t.volume.value, t.volume.unit, rfl⟩,
    fun _ _ => rfl,
    ⟨⟨"t0", ⟨"g0", "g"⟩, "n", ⟨0, "u"⟩, none, none, none⟩, rfl, rfl, rfl, rfl⟩⟩

/-- C10: the attendance type does not constrain its user entries to the
project roster — there is a project (nonempty roster) and an attendance
record naming that project whose entry's identifier appears nowhere in
`project.user` — the regular/outsourced classification depends only on the
presence of the `outsource` field, and one entry may carry an outsource
reference together with entry/exit times.  (The `Project` type itself has no
identifier field, so the attendance's `project_id` is the only side of the
project linkage present in the model.) -/
theorem C10_attendance_roster_free :
    (∀ v : AttendanceUser, isOutsourced v = v.outsource.isSome) ∧
    ∃ (p : Project) (a : ProjectAttendance) (u : AttendanceUser),
      u ∈ a.user ∧ a.project_id = "p1" ∧ p.user ≠ [] ∧
      ((p.user.map fun pu => pu.user_id).contains u._id) = false ∧
      u.outsource.isSome = true ∧ u.entry.isSome = true ∧ u.exit.isSome = true := by
  refine ⟨fun v => rfl,
    ⟨[], [⟨"alice", "engineer"⟩], "proj", none, ⟨"c", ⟨"cp", "n", "r"⟩⟩⟩,
    ⟨"att1", "p1", [⟨"bob", "Bob", "welder", some 480, some 1020, some ⟨"os1", "Acme"⟩⟩], 7⟩,
    ⟨"bob", "Bob", "welder", some 480, some 1020, some ⟨"os1", "Acme"⟩⟩,
    ?_, rfl, ?_, ?_, rfl, rfl, rfl⟩
  · simp
  · simp
  · decide
